import Mathlib

/-!
Shallow embedding of the content-verification and patch-application core of
the swupd client: the delta sweep (apply_deltas, check_delta_filename,
apply_one_delta, compute_hash_from_file) and the permission guard
(validate_permissions, validate_file_permissions from 3rd_party_update.c),
over an abstract filesystem state.

External collaborators (the bsdiff primitive together with xattrs_copy, the
statedir path mappers, the content hash of files already on disk) are
modelled as oracles fixed in an environment; every filesystem effect of the
embedded code itself (staged writes, staged removals, delta artifact
removal) is explicit state passing on the filesystem map.
-/

namespace Swupd

/-- Strings are modelled as lists of characters (C strings without the
terminating NUL, which never occurs inside a filename or a hash). -/
abbrev Str := List Char

/-- The observable state of one filesystem entry: its st_mode as reported by
lstat, and the result that compute_hash_from_file yields at this path (none
when the hash computation fails). An absent entry is modelled by the
filesystem map returning none, which is exactly a failing lstat. -/
structure Entry where
  mode : Nat
  hash : Option Str
deriving DecidableEq

/-- Abstract filesystem: none means lstat fails at this path (no entry,
symlinks not followed); some e means an entry of any kind is present. -/
abbrev FS := Str → Option Entry

/-- Point update of the filesystem: a write for some, a removal for none. -/
def fsUpdate (w : FS) (p : Str) (v : Option Entry) : FS :=
  fun q => if q = p then v else w q

/-- One manifest record (struct file), restricted to the fields this core
reads. peer is the presence of file->peer, the prior-version counterpart. -/
structure file where
  is_deleted : Bool
  is_ghosted : Bool
  is_file : Bool
  hash : Str
  filename : Str
  peer : Bool
deriving DecidableEq

/-- The fixed context of one run: the hash-string length (SWUPD_HASH_LEN
minus the NUL terminator), the pending-delta directory returned by
statedir_get_delta_dir, the install root globals.path_prefix (named pathRoot
here), the staged-path mapper statedir_get_staged_file, and the binary-diff
primitive.

patch models apply_bsdiff_delta followed by xattrs_copy as one black box:
given the source path and the delta payload path it either fails (none) or
produces the staged output entry, whose hash field is the value that
compute_hash_from_file subsequently reports for the staged path. Modelled
from the spec for the external primitive: a primitive failure aborts with no
output artifact, so the staged destination is left untouched. -/
structure Env where
  hashLen : Nat
  delta_dir : Str
  pathRoot : Str
  stagedPath : Str → Str
  patch : Str → Str → Option Entry

/-- Path of a delta artifact inside the pending-delta directory, the
string_or_die format "%s/%s" of delta_dir and the entry name. -/
def deltaPath (env : Env) (name : Str) : Str := env.delta_dir ++ '/' :: name

/-- The "%s/%s" join used both for candidate files and for the currently
installed file in the permission guard. -/
def pathJoin (a b : Str) : Str := a ++ '/' :: b

/-- compute_hash_from_file: populate the file struct from the path and run
compute_hash; it fails (returns false in C, none here) when the file is
missing or the hash computation fails, otherwise yields the content hash. -/
def compute_hash_from_file (w : FS) (p : Str) : Option Str :=
  match w p with
  | none => none
  | some e => e.hash

/-- The strchr call for a dash followed by the step past it in
check_delta_filename: the suffix right after the first dash, or none when
the string contains no dash (strchr returned NULL). -/
def strchrDrop : Str → Option Str
  | [] => none
  | c :: cs => if c = '-' then some cs else strchrDrop cs

/-- The tail of check_delta_filename after the optional version skip: the
remainder must have length exactly 2 * hashLen + 1 with a dash at offset
hashLen; on success the two hash_assign calls copy hashLen characters each
starting at offsets 0 and hashLen + 1. -/
def hashSplit (hashLen : Nat) (s : Str) : Option (Str × Str) :=
  if s.length = 2 * hashLen + 1 then
    if s[hashLen]? = some '-' then
      some (s.take hashLen, (s.drop (hashLen + 1)).take hashLen)
    else none
  else none

/-- check_delta_filename: when the name is longer than 2 * hashLen + 1 it is
assumed to carry the legacy version prefix and the first two dash delimiters
are skipped (failing when strchr finds none); the remainder is then split
into the two hashes. Returns the (from, to) pair on success. -/
def check_delta_filename (hashLen : Nat) (name : Str) : Option (Str × Str) :=
  match (if 2 * hashLen + 1 < name.length then
           (strchrDrop name).bind strchrDrop
         else some name) with
  | none => none
  | some s => hashSplit hashLen s

/-- The candidate scan inside apply_deltas: walk the manifest records in
stored order, skip deleted, ghosted, non-regular records and records whose
manifest hash differs from the wanted source hash; for the remaining
candidates recompute the hash of the on-disk file at pathRoot/filename and
return the first whose recomputed hash equals the manifest hash, skipping
(with a warning in C, logging only) candidates that are missing or differ. -/
def findSource (w : FS) (root : Str) (fr : Str) : List file → Option Str
  | [] => none
  | f :: rest =>
    if f.is_deleted ∨ f.is_ghosted ∨ f.is_file = false ∨ f.hash ≠ fr then
      findSource w root fr rest
    else
      match compute_hash_from_file w (pathJoin root f.filename) with
      | none => findSource w root fr rest
      | some h =>
        if h = f.hash then some (pathJoin root f.filename)
        else findSource w root fr rest

/-- The warning diagnostics emitted by the sweep, carrying the delta file
path exactly where the C warn format string does. -/
inductive Warn where
  | invalidName (delta_file : Str)
  | noSource
  | hashFail (delta_file : Str)
  | wrongHash (delta_file : Str)
deriving DecidableEq

/-- apply_one_delta: run the bsdiff primitive (with xattrs_copy folded into
the patch oracle); on primitive failure return with the filesystem unchanged
and no diagnostic; otherwise recompute the hash of the staged output, and on
computation failure or hash mismatch warn naming the delta file and remove
the staged output; on a matching hash keep the staged output. -/
def apply_one_delta (env : Env) (w : FS) (from_file to_staged delta_file to_hash : Str) :
    FS × List Warn :=
  match env.patch from_file delta_file with
  | none => (w, [])
  | some e =>
    match compute_hash_from_file (fsUpdate w to_staged (some e)) to_staged with
    | none =>
      (fsUpdate (fsUpdate w to_staged (some e)) to_staged none, [Warn.hashFail delta_file])
    | some h =>
      if h = to_hash then (fsUpdate w to_staged (some e), [])
      else (fsUpdate (fsUpdate w to_staged (some e)) to_staged none, [Warn.wrongHash delta_file])

/-- The directory pseudo-entry "." skipped by the readdir loop. -/
def dotName : Str := ['.']

/-- The directory pseudo-entry ".." skipped by the readdir loop. -/
def dotdotName : Str := ['.', '.']

/-- One iteration of the readdir loop in apply_deltas: skip the two pseudo
entries outright; otherwise decode the name (warn and fall through on
failure), skip when the staged destination already exists, resolve a
verified source (warn and fall through when none), apply the delta, and in
every non-pseudo case unconditionally remove the delta artifact. -/
def processName (env : Env) (m : List file) (w : FS) (name : Str) : FS × List Warn :=
  if name = dotName ∨ name = dotdotName then (w, [])
  else
    let delta_file := deltaPath env name
    let r :=
      match check_delta_filename env.hashLen name with
      | none => (w, [Warn.invalidName delta_file])
      | some pr =>
        let to_staged := env.stagedPath pr.2
        if (w to_staged).isSome then (w, [])
        else
          match findSource w env.pathRoot pr.1 m with
          | none => (w, [Warn.noSource])
          | some found => apply_one_delta env w found to_staged delta_file pr.2
    (fsUpdate r.1 delta_file none, r.2)

/-- apply_deltas: fold the loop body over the readdir enumeration of the
pending-delta directory, threading the filesystem and collecting the
warnings in order. -/
def apply_deltas (env : Env) (m : List file) : FS → List Str → FS × List Warn
  | w, [] => (w, [])
  | w, n :: rest =>
    let r := processName env m w n
    let r2 := apply_deltas env m r.1 rest
    (r2.1, r.2 ++ r2.2)

/-- The setuid mode bit S_ISUID, octal 4000. -/
def S_ISUID : Nat := 2048

/-- The setgid mode bit S_ISGID, octal 2000. -/
def S_ISGID : Nat := 1024

/-- The sticky mode bit S_ISVTX, octal 1000. -/
def S_ISVTX : Nat := 512

/-- The dangerous-bit test of validate_permissions: some of setuid, setgid,
sticky is set in the mode. -/
abbrev dangerousBits (m : Nat) : Prop :=
  m &&& S_ISUID ≠ 0 ∨ m &&& S_ISGID ≠ 0 ∨ m &&& S_ISVTX ≠ 0

/-- The escalation test of validate_permissions: some dangerous bit is set
in the staged mode s but clear in the installed mode o. -/
abbrev escalatedBits (s o : Nat) : Prop :=
  (s &&& S_ISUID ≠ 0 ∧ o &&& S_ISUID = 0) ∨
  (s &&& S_ISGID ≠ 0 ∧ o &&& S_ISGID = 0) ∨
  (s &&& S_ISVTX ≠ 0 ∧ o &&& S_ISVTX = 0)

/-- The per-file verdict of the permission guard. In C the function returns
SWUPD_OK, SWUPD_NO or SWUPD_INVALID_FILE; the two SWUPD_NO cases are told
apart by the warning printed, which this richer codomain records. -/
inductive Verdict where
  | clean
  | newDangerous
  | escalatedDangerous
  | integrityFailure
deriving DecidableEq

/-- validate_permissions: Clean for an absent or deleted record; otherwise
lstat the staged file for the record hash (IntegrityFailure when that
fails); Clean when no dangerous bit is staged; NewDangerous when dangerous
bits are staged and the record has no peer; with a peer, lstat the installed
file at pathRoot/filename (IntegrityFailure when that fails) and flag
EscalatedDangerous exactly when a staged dangerous bit was clear in the
installed mode, Clean otherwise. -/
def validate_permissions (env : Env) (w : FS) (f? : Option file) : Verdict :=
  match f? with
  | none => Verdict.clean
  | some f =>
    if f.is_deleted then Verdict.clean
    else
      match w (env.stagedPath f.hash) with
      | none => Verdict.integrityFailure
      | some st =>
        if dangerousBits st.mode then
          if f.peer = false then Verdict.newDangerous
          else
            match w (pathJoin env.pathRoot f.filename) with
            | none => Verdict.integrityFailure
            | some ot =>
              if escalatedBits st.mode ot.mode then Verdict.escalatedDangerous
              else Verdict.clean
        else Verdict.clean

/-- The three swupd_code values this slice produces. -/
inductive swupd_code where
  | SWUPD_OK
  | SWUPD_NO
  | SWUPD_INVALID_FILE
deriving DecidableEq

/-- The code validate_permissions actually returns for each verdict: both
dangerous verdicts are SWUPD_NO, distinguished only by the warning text. -/
def verdict_code : Verdict → swupd_code
  | Verdict.clean => swupd_code.SWUPD_OK
  | Verdict.newDangerous => swupd_code.SWUPD_NO
  | Verdict.escalatedDangerous => swupd_code.SWUPD_NO
  | Verdict.integrityFailure => swupd_code.SWUPD_INVALID_FILE

/-- Severity order of the aggregate: OK below NO below INVALID_FILE. -/
def severity : swupd_code → Nat
  | swupd_code.SWUPD_OK => 0
  | swupd_code.SWUPD_NO => 1
  | swupd_code.SWUPD_INVALID_FILE => 2

/-- Modelled from the spec: third_party_process_files (declared in
3rd_party_repos.h, its body is not part of this slice) runs the per-file
callback, here validate_permissions, over the batch and aggregates the
outcomes into the maximum-severity code, Clean below the two Dangerous kinds
below IntegrityFailure. -/
def third_party_process_files (env : Env) (w : FS) (files : List file) : swupd_code :=
  files.foldl
    (fun acc f =>
      let c := verdict_code (validate_permissions env w (some f))
      if severity acc < severity c then c else acc)
    swupd_code.SWUPD_OK

/-- validate_file_permissions: evaluate the batch; when the aggregate is
SWUPD_NO warn and ask the operator (confirm is the confirm_action outcome,
the returned Bool records that the prompt happened), turning acceptance into
SWUPD_OK and decline into SWUPD_INVALID_FILE; any other aggregate, in
particular SWUPD_INVALID_FILE, is returned directly without prompting. -/
def validate_file_permissions (env : Env) (w : FS) (confirm : Bool) (files : List file) :
    swupd_code × Bool :=
  let rc := third_party_process_files env w files
  if rc = swupd_code.SWUPD_NO then
    (if confirm then swupd_code.SWUPD_OK else swupd_code.SWUPD_INVALID_FILE, true)
  else (rc, false)

/-- The entry the witness patch primitive produces, of content hash t. -/
def entryT : Entry := { mode := 0, hash := some ['t'] }

/-- A small concrete environment used by the witnesses. -/
def envW : Env :=
  { hashLen := 1
  , delta_dir := ['d']
  , pathRoot := ['r']
  , stagedPath := fun h => 's' :: h
  , patch := fun _ _ => some entryT }

/-- The witness environment with a patch primitive that always fails. -/
def envF : Env := { envW with patch := fun _ _ => none }

/-- A concrete manifest record with no prior version. -/
def fW : file :=
  { is_deleted := false, is_ghosted := false, is_file := true
  , hash := ['h'], filename := ['f'], peer := false }

/-- A staged entry with mode octal 4755, i.e. setuid plus rwxr-xr-x. -/
def stW : Entry := { mode := 2541, hash := some ['h'] }

/-- A world whose only entry is the staged file for hash h. -/
def wW : FS := fun p => if p = ['s', 'h'] then some stW else none

/-- An entry whose recorded content hash z differs from every target hash
used by the witnesses. -/
def entryX : Entry := { mode := 0, hash := some ['z'] }

/-- A world whose only entry sits at the staged path for hash b but holds
content of a different hash. -/
def wB : FS := fun p => if p = ['s', 'b'] then some entryX else none

/-- The empty world: every lstat fails. -/
def w0 : FS := fun _ => none

theorem strchrDrop_append (V r : Str) (h : '-' ∉ V) :
    strchrDrop (V ++ '-' :: r) = some r := by
  induction V with
  | nil => simp [strchrDrop]
  | cons c cs ih =>
    have hc : c ≠ '-' := fun e => h (e ▸ List.mem_cons_self c cs)
    simp only [List.cons_append, strchrDrop, if_neg hc]
    exact ih fun hm => h (List.mem_cons_of_mem c hm)

theorem strchrDrop_eq_some :
    ∀ (s r : Str), strchrDrop s = some r → ∃ V, '-' ∉ V ∧ s = V ++ '-' :: r
  | [], r, h => by simp [strchrDrop] at h
  | c :: cs, r, h => by
    by_cases hc : c = '-'
    · subst hc
      have h' : cs = r := by simpa [strchrDrop] using h
      exact ⟨[], by simp, by simp [h']⟩
    · have h' : strchrDrop cs = some r := by simpa [strchrDrop, hc] using h
      obtain ⟨V, hV, hs⟩ := strchrDrop_eq_some cs r h'
      exact ⟨c :: V, by simp [hV, Ne.symm hc], by simp [hs]⟩

theorem hashSplit_append (H : Nat) (A B : Str) (hA : A.length = H) (hB : B.length = H) :
    hashSplit H (A ++ '-' :: B) = some (A, B) := by
  have hlen : (A ++ '-' :: B).length = 2 * H + 1 := by
    simp [hA, hB]; omega
  have hget : (A ++ '-' :: B)[H]? = some '-' := by
    rw [List.getElem?_append_right (by omega : A.length ≤ H)]
    simp [hA]
  have hdrop : (A ++ '-' :: B).drop (H + 1) = B := by
    have he : A ++ '-' :: B = (A ++ ['-']) ++ B := by simp
    rw [he, List.drop_left' (by simp [hA])]
  simp [hashSplit, hlen, hget, List.take_left' hA, hdrop,
    List.take_of_length_le (le_of_eq hB)]

theorem hashSplit_eq_some (H : Nat) (s A B : Str) (h : hashSplit H s = some (A, B)) :
    A.length = H ∧ B.length = H ∧ s = A ++ '-' :: B := by
  by_cases hlen : s.length = 2 * H + 1
  · by_cases hget : s[H]? = some '-'
    · rw [hashSplit, if_pos hlen, if_pos hget, Option.some.injEq] at h
      obtain ⟨hA, hB⟩ := Prod.mk.injEq .. ▸ h
      have hH : H < s.length := by omega
      have hgetE : s[H] = '-' := by
        have := List.getElem?_eq_getElem hH
        rw [this] at hget
        exact Option.some.inj hget
      have hdlen : (s.drop (H + 1)).length = H := by
        rw [List.length_drop, hlen]; omega
      constructor
      · rw [← hA, List.length_take, hlen]; omega
      constructor
      · rw [← hB, List.take_of_length_le (le_of_eq hdlen)]
        exact hdlen
      · rw [← hA, ← hB, List.take_of_length_le (le_of_eq hdlen)]
        conv_lhs => rw [← List.take_append_drop H s]
        rw [List.drop_eq_getElem_cons hH, hgetE]
    · rw [hashSplit, if_pos hlen, if_neg hget] at h
      exact absurd h (by simp)
  · rw [hashSplit, if_neg hlen] at h
    exact absurd h (by simp)

theorem check_short (H : Nat) (A B : Str) (hA : A.length = H) (hB : B.length = H) :
    check_delta_filename H (A ++ '-' :: B) = some (A, B) := by
  have hnot : ¬(2 * H + 1 < (A ++ '-' :: B).length) := by
    simp [hA, hB]; omega
  unfold check_delta_filename
  rw [if_neg hnot]
  exact hashSplit_append H A B hA hB

theorem check_long (H : Nat) (V1 V2 A B : Str) (h1 : '-' ∉ V1) (h2 : '-' ∉ V2)
    (hA : A.length = H) (hB : B.length = H) :
    check_delta_filename H (V1 ++ '-' :: (V2 ++ '-' :: (A ++ '-' :: B))) = some (A, B) := by
  have hlen : 2 * H + 1 < (V1 ++ '-' :: (V2 ++ '-' :: (A ++ '-' :: B))).length := by
    simp [hA, hB]; omega
  have hs1 : strchrDrop (V1 ++ '-' :: (V2 ++ '-' :: (A ++ '-' :: B))) =
      some (V2 ++ '-' :: (A ++ '-' :: B)) := strchrDrop_append _ _ h1
  have hs2 : strchrDrop (V2 ++ '-' :: (A ++ '-' :: B)) = some (A ++ '-' :: B) :=
    strchrDrop_append _ _ h2
  unfold check_delta_filename
  rw [if_pos hlen, hs1, Option.some_bind, hs2]
  exact hashSplit_append H A B hA hB

theorem check_eq_some (H : Nat) (name A B : Str)
    (h : check_delta_filename H name = some (A, B)) :
    A.length = H ∧ B.length = H ∧
      (name = A ++ '-' :: B ∨
        ∃ V1 V2, '-' ∉ V1 ∧ '-' ∉ V2 ∧
          name = V1 ++ '-' :: (V2 ++ '-' :: (A ++ '-' :: B))) := by
  unfold check_delta_filename at h
  by_cases hlen : 2 * H + 1 < name.length
  · rw [if_pos hlen] at h
    cases hc1 : strchrDrop name with
    | none => rw [hc1] at h; simp at h
    | some r1 =>
      rw [hc1, Option.some_bind] at h
      cases hc2 : strchrDrop r1 with
      | none => rw [hc2] at h; simp at h
      | some s =>
        rw [hc2] at h
        obtain ⟨hA, hB, hs⟩ := hashSplit_eq_some H s A B h
        obtain ⟨V1, hV1, e1⟩ := strchrDrop_eq_some name r1 hc1
        obtain ⟨V2, hV2, e2⟩ := strchrDrop_eq_some r1 s hc2
        exact ⟨hA, hB, Or.inr ⟨V1, V2, hV1, hV2, by rw [e1, e2, hs]⟩⟩
  · rw [if_neg hlen] at h
    obtain ⟨hA, hB, hs⟩ := hashSplit_eq_some H name A B h
    exact ⟨hA, hB, Or.inl hs⟩

/-- C3: with H the fixed hash-string length, every name of the form A-B with
both parts of length H parses to exactly (A, B); every name of the form
V1-V2-A-B, with dash-free version tokens skipped and both hash parts of
length H, parses to exactly (A, B); and conversely every successful parse
arises from one of these two forms, so every other string returns none. -/
theorem C3_codec (H : Nat) :
    (∀ A B : Str, A.length = H → B.length = H →
      check_delta_filename H (A ++ '-' :: B) = some (A, B)) ∧
    (∀ V1 V2 A B : Str, '-' ∉ V1 → '-' ∉ V2 → A.length = H → B.length = H →
      check_delta_filename H (V1 ++ '-' :: (V2 ++ '-' :: (A ++ '-' :: B))) = some (A, B)) ∧
    (∀ name A B : Str, check_delta_filename H name = some (A, B) →
      A.length = H ∧ B.length = H ∧
        (name = A ++ '-' :: B ∨
          ∃ V1 V2, '-' ∉ V1 ∧ '-' ∉ V2 ∧
            name = V1 ++ '-' :: (V2 ++ '-' :: (A ++ '-' :: B)))) :=
  ⟨fun A B hA hB => check_short H A B hA hB,
   fun V1 V2 A B h1 h2 hA hB => check_long H V1 V2 A B h1 h2 hA hB,
   fun name A B h => check_eq_some H name A B h⟩

/-- Witness for C3 at a concrete two-character hash length. -/
theorem C3_codec_witness :
    check_delta_filename 2 (['a', 'b'] ++ '-' :: ['c', 'd']) = some (['a', 'b'], ['c', 'd']) :=
  (C3_codec 2).1 ['a', 'b'] ['c', 'd'] rfl rfl

/-- C2: the candidate scan equals the first record of the manifest, in
stored order, that is neither deleted nor ghosted, is a regular file, whose
manifest hash is the requested source hash, and whose freshly recomputed
on-disk hash at the resolved install path equals that source hash; its
resolved path is returned. Records failing any of these tests, including a
missing on-disk file or a mismatching recomputed hash, are skipped with the
scan continuing and are never the returned record; when no record survives,
none is returned. -/
theorem C2_resolver (w : FS) (root fr : Str) (files : List file) :
    findSource w root fr files =
      (files.find? (fun f =>
        !f.is_deleted && !f.is_ghosted && f.is_file && (f.hash == fr) &&
        (compute_hash_from_file w (pathJoin root f.filename) == some fr))).map
        (fun f => pathJoin root f.filename) := by
  induction files with
  | nil => rfl
  | cons f rest ih =>
    by_cases hskip : f.is_deleted ∨ f.is_ghosted ∨ f.is_file = false ∨ f.hash ≠ fr
    · have hL : findSource w root fr (f :: rest) = findSource w root fr rest := by
        rw [findSource, if_pos hskip]
      have hp : (!f.is_deleted && !f.is_ghosted && f.is_file && (f.hash == fr) &&
          (compute_hash_from_file w (pathJoin root f.filename) == some fr)) = false := by
        rcases hskip with h | h | h | h <;> simp [h]
      rw [hL]
      simp only [List.find?_cons, hp]
      exact ih
    · push_neg at hskip
      obtain ⟨h1, h2, h3, h4⟩ := hskip
      have h1' : f.is_deleted = false := by simpa using h1
      have h2' : f.is_ghosted = false := by simpa using h2
      have h3' : f.is_file = true := by simpa using h3
      have hnotskip : ¬(f.is_deleted ∨ f.is_ghosted ∨ f.is_file = false ∨ f.hash ≠ fr) := by
        simp [h1', h2', h3', h4]
      cases hc : compute_hash_from_file w (pathJoin root f.filename) with
      | none =>
        have hL : findSource w root fr (f :: rest) = findSource w root fr rest := by
          rw [findSource, if_neg hnotskip, hc]
        have hp : (!f.is_deleted && !f.is_ghosted && f.is_file && (f.hash == fr) &&
            (compute_hash_from_file w (pathJoin root f.filename) == some fr)) = false := by
          simp [hc]
        rw [hL]
        simp only [List.find?_cons, hp]
        exact ih
      | some h =>
        have hL : findSource w root fr (f :: rest) =
            if h = f.hash then some (pathJoin root f.filename)
            else findSource w root fr rest := by
          rw [findSource, if_neg hnotskip, hc]
        by_cases hh : h = f.hash
        · have hp : (!f.is_deleted && !f.is_ghosted && f.is_file && (f.hash == fr) &&
              (compute_hash_from_file w (pathJoin root f.filename) == some fr)) = true := by
            simp [h1', h2', h3', h4, hc, hh]
          rw [hL, if_pos hh]
          simp only [List.find?_cons, hp]
          rfl
        · have hp : (!f.is_deleted && !f.is_ghosted && f.is_file && (f.hash == fr) &&
              (compute_hash_from_file w (pathJoin root f.filename) == some fr)) = false := by
            have hne : h ≠ fr := fun he => hh (he.trans h4.symm)
            simp [hc, hne]
          rw [hL, if_neg hh]
          simp only [List.find?_cons, hp]
          exact ih

theorem fsUpdate_self (w : FS) (p : Str) (v : Option Entry) : fsUpdate w p v p = v := by
  simp [fsUpdate]

theorem fsUpdate_ne (w : FS) (p : Str) (v : Option Entry) (q : Str) (h : q ≠ p) :
    fsUpdate w p v q = w q := by
  simp [fsUpdate, h]

theorem compute_hash_fsUpdate (w : FS) (ts : Str) (e : Entry) :
    compute_hash_from_file (fsUpdate w ts (some e)) ts = e.hash := by
  simp [compute_hash_from_file, fsUpdate]

theorem apply_one_delta_fail (env : Env) (w : FS) (a ts df th : Str)
    (h : env.patch a df = none) :
    apply_one_delta env w a ts df th = (w, []) := by
  simp only [apply_one_delta, h]

theorem apply_one_delta_hashNone (env : Env) (w : FS) (a ts df th : Str) (e : Entry)
    (hp : env.patch a df = some e) (he : e.hash = none) :
    apply_one_delta env w a ts df th =
      (fsUpdate (fsUpdate w ts (some e)) ts none, [Warn.hashFail df]) := by
  simp only [apply_one_delta, hp, compute_hash_fsUpdate, he]

theorem apply_one_delta_keep (env : Env) (w : FS) (a ts df th : Str) (e : Entry)
    (hp : env.patch a df = some e) (he : e.hash = some th) :
    apply_one_delta env w a ts df th = (fsUpdate w ts (some e), []) := by
  simp [apply_one_delta, hp, compute_hash_fsUpdate, he]

theorem apply_one_delta_mismatch (env : Env) (w : FS) (a ts df th : Str) (e : Entry)
    (h : Str) (hp : env.patch a df = some e) (he : e.hash = some h) (hne : h ≠ th) :
    apply_one_delta env w a ts df th =
      (fsUpdate (fsUpdate w ts (some e)) ts none, [Warn.wrongHash df]) := by
  simp [apply_one_delta, hp, compute_hash_fsUpdate, he, hne]

theorem apply_one_delta_frame (env : Env) (w : FS) (a ts df th p : Str) (hp : p ≠ ts) :
    (apply_one_delta env w a ts df th).1 p = w p := by
  cases hpa : env.patch a df with
  | none => rw [apply_one_delta_fail env w a ts df th hpa]
  | some e =>
    cases he : e.hash with
    | none =>
      rw [apply_one_delta_hashNone env w a ts df th e hpa he]
      simp [fsUpdate, hp]
    | some h =>
      by_cases hh : h = th
      · subst hh
        rw [apply_one_delta_keep env w a ts df h e hpa he]
        simp [fsUpdate, hp]
      · rw [apply_one_delta_mismatch env w a ts df th e h hpa he hh]
        simp [fsUpdate, hp]

theorem check_dot (H : Nat) : check_delta_filename H dotName = none := by
  have hnot : ¬(2 * H + 1 < (dotName : Str).length) := by simp [dotName]
  by_cases hl : (dotName : Str).length = 2 * H + 1
  · have hH : H = 0 := by simp [dotName] at hl; omega
    subst hH
    decide
  · simp only [check_delta_filename, if_neg hnot, hashSplit, if_neg hl]

theorem check_dotdot (H : Nat) : check_delta_filename H dotdotName = none := by
  by_cases h : 2 * H + 1 < (dotdotName : Str).length
  · have hs : strchrDrop dotdotName = none := by decide
    simp only [check_delta_filename, if_pos h, hs, Option.none_bind]
  · have hl : ¬((dotdotName : Str).length = 2 * H + 1) := by simp [dotdotName]
    simp only [check_delta_filename, if_neg h, hashSplit, if_neg hl]

theorem check_ne_dots (H : Nat) (name fr tgt : Str)
    (h : check_delta_filename H name = some (fr, tgt)) :
    ¬(name = dotName ∨ name = dotdotName) := by
  rintro (rfl | rfl)
  · rw [check_dot] at h; exact absurd h (by simp)
  · rw [check_dotdot] at h; exact absurd h (by simp)

theorem processName_dot (env : Env) (m : List file) (w : FS) (name : Str)
    (h : name = dotName ∨ name = dotdotName) :
    processName env m w name = (w, []) := by
  unfold processName; rw [if_pos h]

theorem processName_invalid (env : Env) (m : List file) (w : FS) (name : Str)
    (hdot : ¬(name = dotName ∨ name = dotdotName))
    (hc : check_delta_filename env.hashLen name = none) :
    processName env m w name =
      (fsUpdate w (deltaPath env name) none, [Warn.invalidName (deltaPath env name)]) := by
  unfold processName
  rw [if_neg hdot]
  simp only [hc]

theorem processName_skip (env : Env) (m : List file) (w : FS) (name fr tgt : Str)
    (hc : check_delta_filename env.hashLen name = some (fr, tgt))
    (hs : (w (env.stagedPath tgt)).isSome = true) :
    processName env m w name = (fsUpdate w (deltaPath env name) none, []) := by
  unfold processName
  rw [if_neg (check_ne_dots env.hashLen name fr tgt hc)]
  simp [hc, hs]

theorem processName_nosrc (env : Env) (m : List file) (w : FS) (name fr tgt : Str)
    (hc : check_delta_filename env.hashLen name = some (fr, tgt))
    (hs : w (env.stagedPath tgt) = none)
    (hf : findSource w env.pathRoot fr m = none) :
    processName env m w name =
      (fsUpdate w (deltaPath env name) none, [Warn.noSource]) := by
  unfold processName
  rw [if_neg (check_ne_dots env.hashLen name fr tgt hc)]
  simp [hc, hs, hf]

theorem processName_apply (env : Env) (m : List file) (w : FS) (name fr tgt found : Str)
    (hc : check_delta_filename env.hashLen name = some (fr, tgt))
    (hs : w (env.stagedPath tgt) = none)
    (hf : findSource w env.pathRoot fr m = some found) :
    processName env m w name =
      (fsUpdate (apply_one_delta env w found (env.stagedPath tgt) (deltaPath env name) tgt).1
         (deltaPath env name) none,
       (apply_one_delta env w found (env.stagedPath tgt) (deltaPath env name) tgt).2) := by
  unfold processName
  rw [if_neg (check_ne_dots env.hashLen name fr tgt hc)]
  simp [hc, hs, hf]

theorem processName_fst_eq (env : Env) (m : List file) (w : FS) (name : Str)
    (hdot : ¬(name = dotName ∨ name = dotdotName)) :
    ∃ X : FS, (processName env m w name).1 = fsUpdate X (deltaPath env name) none ∧
      ∀ p, (∀ h, p ≠ env.stagedPath h) → X p = w p := by
  cases hc : check_delta_filename env.hashLen name with
  | none =>
    refine ⟨w, ?_, fun p _ => rfl⟩
    rw [processName_invalid env m w name hdot hc]
  | some pr =>
    obtain ⟨fr, tgt⟩ := pr
    cases hs : w (env.stagedPath tgt) with
    | some e =>
      refine ⟨w, ?_, fun p _ => rfl⟩
      rw [processName_skip env m w name fr tgt hc (by rw [hs]; rfl)]
    | none =>
      cases hf : findSource w env.pathRoot fr m with
      | none =>
        refine ⟨w, ?_, fun p _ => rfl⟩
        rw [processName_nosrc env m w name fr tgt hc hs hf]
      | some found =>
        refine ⟨(apply_one_delta env w found (env.stagedPath tgt) (deltaPath env name) tgt).1,
          ?_, fun p hp => ?_⟩
        · rw [processName_apply env m w name fr tgt found hc hs hf]
        · exact apply_one_delta_frame env w found (env.stagedPath tgt) (deltaPath env name) tgt
            p (hp tgt)

theorem processName_frame (env : Env) (m : List file) (w : FS) (name p : Str)
    (hstag : ∀ h, p ≠ env.stagedPath h)
    (hdelta : ∀ q, p ≠ deltaPath env q) :
    (processName env m w name).1 p = w p := by
  by_cases hdot : name = dotName ∨ name = dotdotName
  · rw [processName_dot env m w name hdot]
  · obtain ⟨X, hX, hXp⟩ := processName_fst_eq env m w name hdot
    rw [hX, fsUpdate_ne _ _ _ _ (hdelta name)]
    exact hXp p hstag

theorem processName_deltaPath_or (env : Env) (m : List file) (w : FS) (name : Str)
    (hsep : ∀ h q, env.stagedPath h ≠ deltaPath env q) (q : Str) :
    (processName env m w name).1 (deltaPath env q) = w (deltaPath env q) ∨
    (processName env m w name).1 (deltaPath env q) = none := by
  by_cases hdot : name = dotName ∨ name = dotdotName
  · left; rw [processName_dot env m w name hdot]
  · obtain ⟨X, hX, hXp⟩ := processName_fst_eq env m w name hdot
    by_cases heq : deltaPath env q = deltaPath env name
    · right; rw [hX, heq]; exact fsUpdate_self ..
    · left
      rw [hX, fsUpdate_ne _ _ _ _ heq]
      exact hXp (deltaPath env q) (fun h he => hsep h q he.symm)

theorem processName_removes (env : Env) (m : List file) (w : FS) (name : Str)
    (hdot : ¬(name = dotName ∨ name = dotdotName)) :
    (processName env m w name).1 (deltaPath env name) = none := by
  obtain ⟨X, hX, _⟩ := processName_fst_eq env m w name hdot
  rw [hX]
  exact fsUpdate_self ..

theorem apply_deltas_fst_cons (env : Env) (m : List file) (w : FS) (n : Str)
    (rest : List Str) :
    (apply_deltas env m w (n :: rest)).1 =
      (apply_deltas env m (processName env m w n).1 rest).1 := rfl

theorem apply_deltas_pair_cons (env : Env) (m : List file) (w : FS) (n : Str)
    (rest : List Str) :
    apply_deltas env m w (n :: rest) =
      ((apply_deltas env m (processName env m w n).1 rest).1,
       (processName env m w n).2 ++ (apply_deltas env m (processName env m w n).1 rest).2) :=
  rfl

theorem apply_deltas_frame (env : Env) (m : List file) (entries : List Str) :
    ∀ (w : FS) (p : Str), (∀ h, p ≠ env.stagedPath h) → (∀ q, p ≠ deltaPath env q) →
      (apply_deltas env m w entries).1 p = w p := by
  induction entries with
  | nil => intro w p _ _; rfl
  | cons n rest ih =>
    intro w p hstag hdelta
    rw [apply_deltas_fst_cons, ih (processName env m w n).1 p hstag hdelta]
    exact processName_frame env m w n p hstag hdelta

theorem apply_deltas_deltaPath_or (env : Env) (m : List file)
    (hsep : ∀ h q, env.stagedPath h ≠ deltaPath env q) (entries : List Str) :
    ∀ (w : FS) (q : Str),
      (apply_deltas env m w entries).1 (deltaPath env q) = w (deltaPath env q) ∨
      (apply_deltas env m w entries).1 (deltaPath env q) = none := by
  induction entries with
  | nil => intro w q; exact Or.inl rfl
  | cons n rest ih =>
    intro w q
    rw [apply_deltas_fst_cons]
    rcases ih (processName env m w n).1 q with h | h
    · rw [h]; exact processName_deltaPath_or env m w n hsep q
    · right; exact h

theorem apply_deltas_none_stays (env : Env) (m : List file)
    (hsep : ∀ h q, env.stagedPath h ≠ deltaPath env q) (entries : List Str)
    (w : FS) (q : Str) (h : w (deltaPath env q) = none) :
    (apply_deltas env m w entries).1 (deltaPath env q) = none := by
  rcases apply_deltas_deltaPath_or env m hsep entries w q with h2 | h2
  · rw [h2, h]
  · exact h2

theorem apply_deltas_removes (env : Env) (m : List file)
    (hsep : ∀ h q, env.stagedPath h ≠ deltaPath env q) (entries : List Str) :
    ∀ (w : FS) (n : Str), n ∈ entries → n ≠ dotName → n ≠ dotdotName →
      (apply_deltas env m w entries).1 (deltaPath env n) = none := by
  induction entries with
  | nil => intro w n h _ _; exact absurd h (List.not_mem_nil n)
  | cons a rest ih =>
    intro w n hmem h1 h2
    rw [apply_deltas_fst_cons]
    by_cases hna : n = a
    · subst hna
      apply apply_deltas_none_stays env m hsep rest
      exact processName_removes env m w n (by rintro (h | h); exacts [h1 h, h2 h])
    · rcases List.mem_cons.mp hmem with h | h
      · exact absurd h hna
      · exact ih (processName env m w a).1 n h h1 h2

theorem apply_deltas_all_dots (env : Env) (m : List file) :
    ∀ (entries : List Str) (w : FS), (∀ n ∈ entries, n = dotName ∨ n = dotdotName) →
      apply_deltas env m w entries = (w, []) := by
  intro entries
  induction entries with
  | nil => intro w _; rfl
  | cons a rest ih =>
    intro w hall
    have ha := hall a (List.mem_cons_self a rest)
    have hrest := fun n hn => hall n (List.mem_cons_of_mem a hn)
    rw [apply_deltas_pair_cons, processName_dot env m w a ha]
    simp [ih w hrest]

/-- For the witness environment, the staged path range and the delta
directory paths are disjoint, as they are for the real statedir layout. -/
theorem envW_sep : ∀ h n, envW.stagedPath h ≠ deltaPath envW n := by
  intro h n hc
  injection hc with h1 _
  exact absurd h1 (by decide)

/-- C4: after a successful run of the binary-diff primitive, a failing hash
recomputation or a recomputed hash differing from the target hash leads to
the staged output being removed and exactly one warning naming the delta
file; a recomputed hash equal to the target hash leads to the staged output
being kept with no warning; and in every case the sweep goes on processing
the remaining artifacts, so the outcome is never fatal to the run. -/
theorem C4_postverify (env : Env) (m : List file) (w : FS)
    (from_file to_staged delta_file to_hash : Str) (e : Entry) (n : Str) (rest : List Str)
    (hsucc : env.patch from_file delta_file = some e) :
    ((e.hash = none →
      (apply_one_delta env w from_file to_staged delta_file to_hash).1 to_staged = none ∧
      (apply_one_delta env w from_file to_staged delta_file to_hash).2 =
        [Warn.hashFail delta_file]) ∧
     (∀ h, e.hash = some h → h ≠ to_hash →
      (apply_one_delta env w from_file to_staged delta_file to_hash).1 to_staged = none ∧
      (apply_one_delta env w from_file to_staged delta_file to_hash).2 =
        [Warn.wrongHash delta_file]) ∧
     (e.hash = some to_hash →
      (apply_one_delta env w from_file to_staged delta_file to_hash).1 to_staged = some e ∧
      (apply_one_delta env w from_file to_staged delta_file to_hash).2 = [])) ∧
    apply_deltas env m w (n :: rest) =
      ((apply_deltas env m (processName env m w n).1 rest).1,
       (processName env m w n).2 ++ (apply_deltas env m (processName env m w n).1 rest).2) := by
  refine ⟨⟨?_, ?_, ?_⟩, rfl⟩
  · intro he
    rw [apply_one_delta_hashNone env w from_file to_staged delta_file to_hash e hsucc he]
    exact ⟨fsUpdate_self .., rfl⟩
  · intro h he hne
    rw [apply_one_delta_mismatch env w from_file to_staged delta_file to_hash e h hsucc he hne]
    exact ⟨fsUpdate_self .., rfl⟩
  · intro he
    rw [apply_one_delta_keep env w from_file to_staged delta_file to_hash e hsucc he]
    exact ⟨fsUpdate_self .., rfl⟩

/-- Witness for C4: the kept case at a concrete successful patch. -/
theorem C4_postverify_witness :
    (apply_one_delta envW wW ['f'] ['s', 't'] ['d'] ['t']).1 ['s', 't'] = some entryT ∧
    (apply_one_delta envW wW ['f'] ['s', 't'] ['d'] ['t']).2 = [] :=
  ((C4_postverify envW [] wW ['f'] ['s', 't'] ['d'] ['t'] entryT ['x'] [] rfl).1).2.2 rfl

/-- C5 counterexample: at a concrete invocation whose binary-diff primitive
fails, the engine emits no warning diagnostic at all, contradicting the
claim that the failure is surfaced as a warning naming the artifact. -/
theorem C5_counterexample :
    envF.patch ['f'] ['d'] = none ∧
    (apply_one_delta envF wW ['f'] ['s', 't'] ['d'] ['t']).2 = [] :=
  ⟨rfl, rfl⟩

/-- C5 amended: when the binary-diff primitive fails, the engine aborts that
artifact non-fatally with the filesystem unchanged, hence no staged output
artifact remaining given the primitive leaves none, and emits no warning of
its own; the sweep continues with the remaining artifacts. -/
theorem C5_amended (env : Env) (m : List file) (w : FS)
    (from_file to_staged delta_file to_hash n : Str) (rest : List Str)
    (hfail : env.patch from_file delta_file = none) :
    apply_one_delta env w from_file to_staged delta_file to_hash = (w, []) ∧
    apply_deltas env m w (n :: rest) =
      ((apply_deltas env m (processName env m w n).1 rest).1,
       (processName env m w n).2 ++ (apply_deltas env m (processName env m w n).1 rest).2) :=
  ⟨apply_one_delta_fail env w from_file to_staged delta_file to_hash hfail, rfl⟩

/-- Witness for the amended C5 at a concrete failing patch. -/
theorem C5_amended_witness :
    apply_one_delta envF w0 ['f'] ['s', 't'] ['d'] ['t'] = (w0, []) :=
  (C5_amended envF [] w0 ['f'] ['s', 't'] ['d'] ['t'] ['x'] [] rfl).1

/-- C7: every enumerated artifact other than the two directory pseudo
entries is absent from the pending-delta location once the sweep returns,
whatever the outcome of its processing, provided the staging area does not
alias the pending-delta directory. -/
theorem C7_cleanup (env : Env) (m : List file) (w : FS) (entries : List Str) (n : Str)
    (hsep : ∀ h q, env.stagedPath h ≠ deltaPath env q)
    (hmem : n ∈ entries) (h1 : n ≠ dotName) (h2 : n ≠ dotdotName) :
    (apply_deltas env m w entries).1 (deltaPath env n) = none :=
  apply_deltas_removes env m hsep entries w n hmem h1 h2

/-- Witness for C7 at a concrete one-artifact run. -/
theorem C7_cleanup_witness :
    (apply_deltas envW [] w0 [['a', '-', 'b']]).1 (deltaPath envW ['a', '-', 'b']) = none :=
  C7_cleanup envW [] w0 [['a', '-', 'b']] ['a', '-', 'b'] envW_sep
    (List.mem_singleton_self _) (by decide) (by decide)

/-- C8: an artifact whose decoded target hash already has a staged entry is
skipped entirely, the loop proceeding straight to the unconditional artifact
removal; and a second run over a snapshot of the directory left by a first
run is a no-op, because the first run removed every artifact, so the second
snapshot can hold only the pseudo entries. -/
theorem C8_idempotent (env : Env) (m : List file) (w : FS) (entries1 entries2 : List Str)
    (hsep : ∀ h q, env.stagedPath h ≠ deltaPath env q)
    (hsnap1 : ∀ n, n ≠ dotName → n ≠ dotdotName →
      (w (deltaPath env n)).isSome = true → n ∈ entries1)
    (hsnap2 : ∀ n ∈ entries2, n ≠ dotName → n ≠ dotdotName →
      ((apply_deltas env m w entries1).1 (deltaPath env n)).isSome = true) :
    (∀ n fr tgt, check_delta_filename env.hashLen n = some (fr, tgt) →
      (w (env.stagedPath tgt)).isSome = true →
      processName env m w n = (fsUpdate w (deltaPath env n) none, [])) ∧
    apply_deltas env m (apply_deltas env m w entries1).1 entries2 =
      ((apply_deltas env m w entries1).1, []) := by
  constructor
  · exact fun n fr tgt hc hs => processName_skip env m w n fr tgt hc hs
  · apply apply_deltas_all_dots
    intro n hn
    by_contra hcon
    push_neg at hcon
    obtain ⟨hd1, hd2⟩ := hcon
    have hsome := hsnap2 n hn hd1 hd2
    by_cases hmem : n ∈ entries1
    · rw [apply_deltas_removes env m hsep entries1 w n hmem hd1 hd2] at hsome
      exact absurd hsome (by simp)
    · have hw : w (deltaPath env n) = none := by
        cases hv : w (deltaPath env n) with
        | none => rfl
        | some e => exact absurd (hsnap1 n hd1 hd2 (by rw [hv]; rfl)) hmem
      rw [apply_deltas_none_stays env m hsep entries1 w n hw] at hsome
      exact absurd hsome (by simp)

/-- Witness for C8 on a concrete run. -/
theorem C8_idempotent_witness :
    apply_deltas envW [] (apply_deltas envW [] w0 []).1 [] =
      ((apply_deltas envW [] w0 []).1, []) :=
  (C8_idempotent envW [] w0 [] [] envW_sep
    (fun n _ _ hs => absurd hs (by simp [w0]))
    (fun n hn => absurd hn (List.not_mem_nil n))).2

/-- C9: the sweep never touches any path outside the staging area and the
pending-delta directory, so in particular the live install tree is only ever
read; inside the pending-delta directory the sweep only removes entries,
never creating or rewriting one. -/
theorem C9_frame (env : Env) (m : List file) (w : FS) (entries : List Str)
    (hsep : ∀ h q, env.stagedPath h ≠ deltaPath env q) :
    (∀ p, (∀ h, p ≠ env.stagedPath h) → (∀ q, p ≠ deltaPath env q) →
      (apply_deltas env m w entries).1 p = w p) ∧
    (∀ q, (apply_deltas env m w entries).1 (deltaPath env q) = w (deltaPath env q) ∨
      (apply_deltas env m w entries).1 (deltaPath env q) = none) :=
  ⟨fun p hstag hdelta => apply_deltas_frame env m entries w p hstag hdelta,
   fun q => apply_deltas_deltaPath_or env m hsep entries w q⟩

/-- Witness for C9 at a path outside both managed locations. -/
theorem C9_frame_witness :
    (apply_deltas envW [] w0 [['a', '-', 'b']]).1 ['x'] = w0 ['x'] :=
  (C9_frame envW [] w0 [['a', '-', 'b']] envW_sep).1 ['x']
    (by intro h hc; injection hc with h1 _; exact absurd h1 (by decide))
    (by intro q hc; injection hc with h1 _; exact absurd h1 (by decide))

/-- C10: the staged-file shortcut is purely existence based: whenever any
entry at all sits at the staged path for the decoded target hash, whatever
its kind, mode or recorded content hash, the artifact skips patching and
goes straight to removal; the entry content plays no role, so the result
holds for every entry value e, in particular entries whose recorded content
hash differs from the target hash. -/
theorem C10_existence_skip (env : Env) (m : List file) (w : FS) (n fr tgt : Str) (e : Entry)
    (hparse : check_delta_filename env.hashLen n = some (fr, tgt))
    (hstaged : w (env.stagedPath tgt) = some e) :
    processName env m w n = (fsUpdate w (deltaPath env n) none, []) :=
  processName_skip env m w n fr tgt hparse (by rw [hstaged]; rfl)

/-- Witness for C10 at a staged entry whose recorded hash z differs from the
decoded target hash b. -/
theorem C10_existence_skip_witness :
    processName envW [] wB ['a', '-', 'b'] =
      (fsUpdate wB (deltaPath envW ['a', '-', 'b']) none, []) :=
  C10_existence_skip envW [] wB ['a', '-', 'b'] ['a'] ['b'] entryX (by decide) (by decide)


theorem and_pow_ne_testBit (m k : Nat) : (m &&& 2 ^ k ≠ 0) ↔ m.testBit k = true := by
  rw [Nat.and_two_pow]
  cases h : m.testBit k <;> simp [h, Nat.pow_eq_zero]

theorem and_pow_eq_zero_testBit (m k : Nat) : (m &&& 2 ^ k = 0) ↔ m.testBit k = false := by
  rw [Nat.and_two_pow]
  cases h : m.testBit k <;> simp [h, Nat.pow_eq_zero]

theorem dangerousBits_iff (m : Nat) :
    dangerousBits m ↔
      (m.testBit 11 = true ∨ m.testBit 10 = true ∨ m.testBit 9 = true) := by
  have h1 := and_pow_ne_testBit m 11
  have h2 := and_pow_ne_testBit m 10
  have h3 := and_pow_ne_testBit m 9
  norm_num at h1 h2 h3
  unfold dangerousBits S_ISUID S_ISGID S_ISVTX
  exact or_congr h1 (or_congr h2 h3)

theorem escalatedBits_iff (s o : Nat) :
    escalatedBits s o ↔
      ((s.testBit 11 = true ∧ o.testBit 11 = false) ∨
       (s.testBit 10 = true ∧ o.testBit 10 = false) ∨
       (s.testBit 9 = true ∧ o.testBit 9 = false)) := by
  have h1 := and_pow_ne_testBit s 11
  have h2 := and_pow_ne_testBit s 10
  have h3 := and_pow_ne_testBit s 9
  have g1 := and_pow_eq_zero_testBit o 11
  have g2 := and_pow_eq_zero_testBit o 10
  have g3 := and_pow_eq_zero_testBit o 9
  norm_num at h1 h2 h3 g1 g2 g3
  unfold escalatedBits S_ISUID S_ISGID S_ISVTX
  exact or_congr (and_congr h1 g1) (or_congr (and_congr h2 g2) (and_congr h3 g3))

theorem not_escalatedBits_iff (s o : Nat) :
    ¬escalatedBits s o ↔
      ((s.testBit 11 = true → o.testBit 11 = true) ∧
       (s.testBit 10 = true → o.testBit 10 = true) ∧
       (s.testBit 9 = true → o.testBit 9 = true)) := by
  rw [escalatedBits_iff]
  simp [not_or, Bool.not_eq_false]

/-- C1: the per-file verdict of the permission guard follows exactly the
rule of the source: Clean for an absent or deleted record; IntegrityFailure
when the staged file cannot be stat'd; Clean when none of setuid (bit 11),
setgid (bit 10), sticky (bit 9) is set in the staged mode; NewDangerous when
one is set and the record has no prior version; with a prior version,
IntegrityFailure when the installed file cannot be stat'd, and otherwise
EscalatedDangerous exactly when some dangerous bit is set in the staged mode
but not in the installed mode, Clean exactly when every staged dangerous bit
was already present in the installed mode. -/
theorem C1_verdict (env : Env) (w : FS) (f : file) :
    validate_permissions env w none = Verdict.clean ∧
    (f.is_deleted = true → validate_permissions env w (some f) = Verdict.clean) ∧
    (f.is_deleted = false → w (env.stagedPath f.hash) = none →
      validate_permissions env w (some f) = Verdict.integrityFailure) ∧
    (∀ st, f.is_deleted = false → w (env.stagedPath f.hash) = some st →
      ¬(st.mode.testBit 11 = true ∨ st.mode.testBit 10 = true ∨ st.mode.testBit 9 = true) →
      validate_permissions env w (some f) = Verdict.clean) ∧
    (∀ st, f.is_deleted = false → w (env.stagedPath f.hash) = some st →
      (st.mode.testBit 11 = true ∨ st.mode.testBit 10 = true ∨ st.mode.testBit 9 = true) →
      f.peer = false → validate_permissions env w (some f) = Verdict.newDangerous) ∧
    (∀ st, f.is_deleted = false → w (env.stagedPath f.hash) = some st →
      (st.mode.testBit 11 = true ∨ st.mode.testBit 10 = true ∨ st.mode.testBit 9 = true) →
      f.peer = true → w (pathJoin env.pathRoot f.filename) = none →
      validate_permissions env w (some f) = Verdict.integrityFailure) ∧
    (∀ st ot, f.is_deleted = false → w (env.stagedPath f.hash) = some st →
      (st.mode.testBit 11 = true ∨ st.mode.testBit 10 = true ∨ st.mode.testBit 9 = true) →
      f.peer = true → w (pathJoin env.pathRoot f.filename) = some ot →
      ((validate_permissions env w (some f) = Verdict.escalatedDangerous ↔
        ((st.mode.testBit 11 = true ∧ ot.mode.testBit 11 = false) ∨
         (st.mode.testBit 10 = true ∧ ot.mode.testBit 10 = false) ∨
         (st.mode.testBit 9 = true ∧ ot.mode.testBit 9 = false))) ∧
       (validate_permissions env w (some f) = Verdict.clean ↔
        ((st.mode.testBit 11 = true → ot.mode.testBit 11 = true) ∧
         (st.mode.testBit 10 = true → ot.mode.testBit 10 = true) ∧
         (st.mode.testBit 9 = true → ot.mode.testBit 9 = true))))) := by
  refine ⟨rfl, ?_, ?_, ?_, ?_, ?_, ?_⟩
  · intro hdel
    simp [validate_permissions, hdel]
  · intro hdel hst
    simp [validate_permissions, hdel, hst]
  · intro st hdel hst hnd
    have hnd2 : ¬dangerousBits st.mode := fun hd => hnd ((dangerousBits_iff st.mode).mp hd)
    simp [validate_permissions, hdel, hst, hnd2]
  · intro st hdel hst hd hp
    have hd2 : dangerousBits st.mode := (dangerousBits_iff st.mode).mpr hd
    simp [validate_permissions, hdel, hst, hd2, hp]
  · intro st hdel hst hd hp hot
    have hd2 : dangerousBits st.mode := (dangerousBits_iff st.mode).mpr hd
    simp [validate_permissions, hdel, hst, hd2, hp, hot]
  · intro st ot hdel hst hd hp hot
    have hd2 : dangerousBits st.mode := (dangerousBits_iff st.mode).mpr hd
    have hred : validate_permissions env w (some f) =
        if escalatedBits st.mode ot.mode then Verdict.escalatedDangerous
        else Verdict.clean := by
      simp [validate_permissions, hdel, hst, hd2, hp, hot]
    constructor
    · rw [hred, ← escalatedBits_iff]
      by_cases hesc : escalatedBits st.mode ot.mode <;> simp [hesc]
    · rw [hred, ← not_escalatedBits_iff]
      by_cases hesc : escalatedBits st.mode ot.mode <;> simp [hesc]

/-- Witness for C1: a new file with a setuid staged mode is flagged
NewDangerous. -/
theorem C1_verdict_witness :
    validate_permissions envW wW (some fW) = Verdict.newDangerous :=
  (C1_verdict envW wW fW).2.2.2.2.1 stW (by decide) (by decide) (by decide) (by decide)

/-- C6: the batch evaluation prompts the operator exactly when the
maximum-severity aggregate of the per-file verdicts is SWUPD_NO, the code of
the two Dangerous kinds; operator acceptance turns the result into SWUPD_OK
and decline into SWUPD_INVALID_FILE; an aggregate of SWUPD_INVALID_FILE is
never prompted for and is returned directly as the blocking error. -/
theorem C6_batch (env : Env) (w : FS) (files : List file) (confirm : Bool) :
    ((validate_file_permissions env w confirm files).2 = true ↔
      third_party_process_files env w files = swupd_code.SWUPD_NO) ∧
    (third_party_process_files env w files = swupd_code.SWUPD_NO →
      (validate_file_permissions env w confirm files).1 =
        (if confirm then swupd_code.SWUPD_OK else swupd_code.SWUPD_INVALID_FILE)) ∧
    (third_party_process_files env w files = swupd_code.SWUPD_INVALID_FILE →
      (validate_file_permissions env w confirm files).2 = false ∧
      (validate_file_permissions env w confirm files).1 = swupd_code.SWUPD_INVALID_FILE) := by
  cases hrc : third_party_process_files env w files with
  | SWUPD_OK => refine ⟨?_, ?_, ?_⟩ <;> simp [validate_file_permissions, hrc]
  | SWUPD_NO => refine ⟨?_, ?_, ?_⟩ <;> simp [validate_file_permissions, hrc]
  | SWUPD_INVALID_FILE => refine ⟨?_, ?_, ?_⟩ <;> simp [validate_file_permissions, hrc]

/-- Witness for C6: a one-file batch whose verdict is NewDangerous prompts,
and a declining operator turns the update into a hard failure. -/
theorem C6_batch_witness :
    (validate_file_permissions envW wW false [fW]).1 = swupd_code.SWUPD_INVALID_FILE ∧
    (validate_file_permissions envW wW false [fW]).2 = true := by
  have h := (C6_batch envW wW [fW] false).2.1 (by decide)
  exact ⟨by rw [h]; simp, ((C6_batch envW wW [fW] false).1).mpr (by decide)⟩


end Swupd
